import Mathlib

/-!
Shallow embedding of the triage-pipeline script (`main.py`): keyword
extraction from reference-manager tags, time-windowed arXiv retrieval,
per-candidate relevance scoring against a fixed profile, threshold
filtering, stable descending ranking, and digest rendering.

External collaborators (Zotero, arXiv, the scoring service, SMTP) appear
as oracle parameters: the arXiv client's result stream is a list of
records, and the scoring service's behaviour for the i-th call is an
oracle value describing what the call raised or returned.
-/

/-- JSON values as produced by `json.loads`.  JSON numbers are modelled as
integers (the script's prompt requests an integer score; fractional
payloads are outside the model). -/
inductive PyJson where
  | obj (fields : List (String × PyJson))
  | arr (elems : List PyJson)
  | num (n : Int)
  | str (s : String)
  | bool (b : Bool)
  | null

/-- Python exceptions that the script's uncaught paths can raise:
`AttributeError` from calling `.get` on a non-dict, `TypeError` from
ordering a non-number against an int. -/
inductive PyError where
  | attrError
  | typeError

mutual

/-- Python `repr` of a JSON value (as used by `str()` on containers).
Escaping of quotes inside strings is not modelled; no claim depends on
container rendering. -/
def pyRepr : PyJson → String
  | .obj fs => "\x7b" ++ String.intercalate ", " (pyReprFields fs) ++ "\x7d"
  | .arr xs => "[" ++ String.intercalate ", " (pyReprElems xs) ++ "]"
  | .num n => toString n
  | .str s => "'" ++ s ++ "'"
  | .bool true => "True"
  | .bool false => "False"
  | .null => "None"

/-- Renders each dict entry of a JSON object, Python-style. -/
def pyReprFields : List (String × PyJson) → List String
  | [] => []
  | (k, v) :: fs => ("'" ++ k ++ "': " ++ pyRepr v) :: pyReprFields fs

/-- Renders each element of a JSON array, Python-style. -/
def pyReprElems : List PyJson → List String
  | [] => []
  | v :: vs => pyRepr v :: pyReprElems vs

end

/-- Python `str()` conversion as applied by an f-string interpolation. -/
def pyStr : PyJson → String
  | .str s => s
  | v => pyRepr v

/-- Python `d.get(key, default)`: on a dict it looks the key up (objects
are assumed duplicate-key free, so the first binding is the one);
on any other value, attribute access `.get` raises `AttributeError`. -/
def pyGet (v : PyJson) (key : String) (dflt : PyJson) : Except PyError PyJson :=
  match v with
  | .obj fs => .ok ((fs.lookup key).getD dflt)
  | _ => .error .attrError

/-- Python truthiness test `not x` for an optional environment string:
`os.environ.get` yields `None` when the variable is missing, and the
empty string is also falsy. -/
def pyFalsy : Option String → Bool
  | none => true
  | some s => s.isEmpty

/-- One candidate record as built by `search_arxiv` and subsequently
enriched (in place) by the scoring loop: `score` and `reason` are the
keys the loop adds to the dict for papers that pass the threshold. -/
structure Paper where
  title : String
  abstract : String
  url : String
  authors : String
  score : Option Int
  reason : Option PyJson

/-- One entry of the arXiv client's result stream, before normalization. -/
structure ArxivResult where
  title : String
  summary : String
  entry_id : String
  published : Int
  authors : List String

/-- The fallback vocabulary `core_keywords` appended in
`get_keywords_from_zotero`. -/
def core_keywords : List String :=
  ["FPGA", "Quantization", "Vision Transformer", "Hardware Accelerator"]

/-- Python `str.isascii()`: every code point below 128 (true on `""`),
stated over the string's character list. -/
def isAsciiStr (s : String) : Bool :=
  s.data.all (fun c => c.toNat < 128)

/-- The contents of the Python `set` named `keywords` after the tag loop:
the ASCII tags, as a set.  `tags` is the flat sequence of tag strings the
nested loop over items encounters, in encounter order. -/
def asciiTagSet (tags : List String) : Finset String :=
  (tags.filter isAsciiStr).toFinset

/-- The script's `get_keywords_from_zotero`: collect ASCII tags into a
set, linearize it with `list(...)`, append `core_keywords`, keep the
first 6.  CPython's `list(set)` order is an unspecified function of the
set's contents (hash order), so the linearization is a parameter `enum`;
theorems assume only that `enum s` lists the elements of `s` without
repetition. -/
def get_keywords_from_zotero (enum : Finset String → List String)
    (tags : List String) : List String :=
  (enum (asciiTagSet tags) ++ core_keywords).take 6

/-- A concrete admissible linearization of a string set, used to
instantiate `enum` in witnesses. -/
def setEnum (s : Finset String) : List String :=
  s.sort (· ≤ ·)

/-- The recency window: 36 hours, in seconds. -/
def windowSeconds : Int := 36 * 3600

/-- Normalization applied per result inside `search_arxiv`'s loop:
newlines in the abstract collapse to spaces, the author list is cut to
its first three names and comma-joined. -/
def toCandidate (r : ArxivResult) : Paper :=
  { title := r.title
    abstract := r.summary.replace "\n" " "
    url := r.entry_id
    authors := String.intercalate ", " (r.authors.take 3)
    score := none
    reason := none }

/-- The query string built by `search_arxiv`: a disjunction over the
abstract field conjoined with the fixed category restriction. -/
def buildQuery (keywords : List String) : String :=
  "(" ++ String.intercalate " OR "
      (keywords.map (fun k => "abs:\"" ++ k ++ "\"")) ++ ") AND cat:cs.*"

/-- The filtering loop of `search_arxiv`: `now` is the run instant
(seconds), `results` the client's result stream for the query; a result
is kept exactly when `r.published > now - 36h` (strict). -/
def search_arxiv (now : Int) : List ArxivResult → List Paper
  | [] => []
  | r :: rs =>
      if now - windowSeconds < r.published then
        toCandidate r :: search_arxiv now rs
      else
        search_arxiv now rs

/-- What one call to the scoring service did, as observed by
`ai_review_paper`: the call raised, or returned text that `json.loads`
rejects, or returned text parsing to the JSON value `v`. -/
inductive SvcBehavior where
  | err
  | badText
  | parsed (v : PyJson)

/-- The sentinel dict returned by `ai_review_paper`'s except-branch. -/
def sentinel : PyJson :=
  .obj [("score", .num 0), ("reason", .str "Error")]

/-- The script's `ai_review_paper`: everything inside the `try` that
raises (the service call itself, or `json.loads` on non-JSON text) is
caught and mapped to the sentinel; a successfully parsed value is
returned as-is, whatever its shape. -/
def ai_review_paper : SvcBehavior → PyJson
  | .err => sentinel
  | .badText => sentinel
  | .parsed v => v

/-- The body of the scoring loop in `main` for one candidate (lines
154-168): fetch the review, read `score` via `.get` (default 0),
compare with `>= 7`, and either enrich the paper with `score` and
`reason` or leave it untouched.  A non-dict review raises
`AttributeError` at `.get`; a non-numeric score raises `TypeError` at
the comparison (a Python bool is an int, `True` is 1, so bools compare
fine and always fall below 7).  The script binds the review dict once;
here the pure value `ai_review_paper b` is written out at both uses. -/
def reviewStep (b : SvcBehavior) (p : Paper) : Except PyError (Option Paper) :=
  match pyGet (ai_review_paper b) "score" (.num 0) with
  | .error e => .error e
  | .ok scoreJ =>
    match scoreJ with
    | .num n =>
        if 7 ≤ n then
          match pyGet (ai_review_paper b) "reason" (.str "N/A") with
          | .error e => .error e
          | .ok reasonJ =>
              .ok (some { p with score := some n, reason := some reasonJ })
        else
          .ok none
    | .bool _ => .ok none
    | _ => .error .typeError

/-- The scoring loop over all candidates: the i-th call's behaviour is
`oracle i`.  Returns the post-loop state of every candidate record (in
order) together with `high_quality_papers` (in order); an uncaught
exception aborts the whole run. -/
def reviewLoop (oracle : Nat → SvcBehavior) :
    Nat → List Paper → Except PyError (List Paper × List Paper)
  | _, [] => .ok ([], [])
  | i, p :: ps =>
    match reviewStep (oracle i) p with
    | .error e => .error e
    | .ok none =>
      match reviewLoop oracle (i + 1) ps with
      | .error e => .error e
      | .ok (post, kept) => .ok (p :: post, kept)
    | .ok (some p2) =>
      match reviewLoop oracle (i + 1) ps with
      | .error e => .error e
      | .ok (post, kept) => .ok (p2 :: post, p2 :: kept)

/-- The sort key `x['score']` of a kept paper; every element of
`high_quality_papers` carries a score, so the `none` default is never
consulted. -/
def scoreKey (p : Paper) : Int :=
  p.score.getD 0

/-- The comparison realised by `sort(key=..., reverse=True)`: `a` may
precede `b` when `b`'s key does not exceed `a`'s. -/
def leRank (a b : Paper) : Bool :=
  decide (scoreKey b ≤ scoreKey a)

/-- `high_quality_papers.sort(key=lambda x: x['score'], reverse=True)`:
CPython's sort is stable and `reverse=True` preserves the order of
equal keys, which is exactly a stable merge sort under `leRank`. -/
def rankPapers (l : List Paper) : List Paper :=
  l.mergeSort leRank

/-- The separator line appended after each digest block:
forty dashes and a newline. -/
def sepLine : String :=
  String.mk (List.replicate 40 '-') ++ "\n"

/-- The summary line opening the email body, carrying the survivor count
and the run date. -/
def mkHeader (count : Nat) (date : String) : String :=
  "Gemini 为您精选了 " ++ toString count ++
    " 篇 FPGA/AI 硬件相关论文 (" ++ date ++ ")：\n\n"

/-- Rendering of `p['score']` in the block; digest entries always carry
a score (a missing key would raise, which is unreachable there). -/
def scoreText (p : Paper) : String :=
  match p.score with
  | some n => toString n
  | none => ""

/-- Rendering of `p['reason']` in the block via `str()`. -/
def reasonText (p : Paper) : String :=
  match p.reason with
  | some r => pyStr r
  | none => ""

/-- One iteration of the rendering loop: the score/title line, the
reason line, the link line, then the separator. -/
def blockOf (p : Paper) : String :=
  "【" ++ scoreText p ++ "分】 " ++ p.title ++ "\n" ++
    "推荐理由: " ++ reasonText p ++ "\n" ++
    "链接: " ++ p.url ++ "\n" ++ sepLine

/-- The email body built in `main` (lines 178-183): the header, then one
block per surviving paper, accumulated left to right. -/
def buildContent (date : String) (papers : List Paper) : String :=
  papers.foldl (fun acc p => acc ++ blockOf p) (mkHeader papers.length date)

/-- Observable effects of one run: which stages were reached, how many
scoring calls were made, the post-loop candidate records, the kept list
before and after ranking, and whether/what the run handed to the email
collaborator. -/
structure RunEffects where
  zoteroFetched : Bool
  arxivSearched : Bool
  scoringCalls : Nat
  postCandidates : List Paper
  kept : List Paper
  ranked : List Paper
  deliveryAttempted : Bool
  emailBody : Option String

/-- The script's `main` (the name `main` is reserved by Lean): abort if the scoring credential is falsy
(before touching any collaborator), build keywords, retrieve, short
circuit on an empty candidate list, run the scoring loop, rank, and
attempt delivery only when the ranked list is non-empty.  `results` is
the arXiv stream the query would produce, `today` the rendered run
date. -/
def mainRun (geminiKey : Option String) (enum : Finset String → List String)
    (tags : List String) (now : Int) (results : List ArxivResult)
    (oracle : Nat → SvcBehavior) (today : String) :
    Except PyError RunEffects :=
  if pyFalsy geminiKey then
    .ok ⟨false, false, 0, [], [], [], false, none⟩
  else
    let _kws := get_keywords_from_zotero enum tags
    let candidates := search_arxiv now results
    if candidates.isEmpty then
      .ok ⟨true, true, 0, [], [], [], false, none⟩
    else
      match reviewLoop oracle 0 candidates with
      | .error e => .error e
      | .ok (post, kept) =>
        let ranked := rankPapers kept
        .ok ⟨true, true, candidates.length, post, kept, ranked,
          !ranked.isEmpty,
          if ranked.isEmpty then none else some (buildContent today ranked)⟩

/-- Projects a finished run to the error it raised, if any. -/
def runError (x : Except PyError RunEffects) : Option PyError :=
  match x with
  | .error e => some e
  | .ok _ => none

/-- Projects a finished run to the scores of its ranked papers. -/
def rankedScores (x : Except PyError RunEffects) : List (Option Int) :=
  match x with
  | .error _ => []
  | .ok eff => eff.ranked.map Paper.score

/-- First index at which `pat` occurs in `s`, if it occurs. -/
def firstPos (pat : List Char) : List Char → Option Nat
  | [] => if pat.isPrefixOf ([] : List Char) then some 0 else none
  | c :: s =>
      if pat.isPrefixOf (c :: s) then some 0
      else (firstPos pat s).map (· + 1)

/-- First character index at which `pat` occurs in `s`, if it occurs. -/
def strPos (pat s : String) : Option Nat :=
  firstPos pat.data s.data

/-- Greedy check that the given fragments occur in the text in the given
order, each strictly after the previous match. -/
def containsInOrder : List (List Char) → List Char → Bool
  | [], _ => true
  | pat :: pats, s =>
    match firstPos pat s with
    | none => false
    | some i => containsInOrder pats (s.drop (i + pat.length))

/-- String version of `containsInOrder`, formalising the phrase "the
block contains these fields in this order". -/
def strContainsInOrder (pats : List String) (s : String) : Bool :=
  containsInOrder (pats.map String.data) s.data

/-- A scoring-service behaviour is benign when it raises inside the
guarded call, or fails to parse, or parses to a JSON object whose
`score` entry is absent, numeric, or boolean: exactly the behaviours the
scoring loop survives. -/
def benignBehavior : SvcBehavior → Bool
  | .err => true
  | .badText => true
  | .parsed (.obj fs) =>
    match fs.lookup "score" with
    | none => true
    | some (.num _) => true
    | some (.bool _) => true
    | some _ => false
  | .parsed _ => false

/-- A bare retrieval-shaped record used in concrete runs. -/
def p0 : Paper :=
  { title := "t", abstract := "a", url := "u", authors := "x",
    score := none, reason := none }

/-- Two equal-score enriched papers for exercising the ranker. -/
def pa : Paper :=
  { title := "A", abstract := "aa", url := "ua", authors := "x",
    score := some 8, reason := some (.str "ra") }

/-- Second equal-score paper; `pa` precedes `pb` in retrieval order. -/
def pb : Paper :=
  { title := "B", abstract := "ab", url := "ub", authors := "y",
    score := some 8, reason := some (.str "rb") }

/-- An enriched paper with marker fields for locating the rendered
pieces inside its digest block. -/
def pX : Paper :=
  { title := "T1", abstract := "zz", url := "U1", authors := "au",
    score := some 8, reason := some (.str "R1") }

/-- One arXiv result inside the window (for `now = 0`), with a newline
in its abstract and four authors, exercising normalization. -/
def r9 : ArxivResult :=
  { title := "Quantized ViT", summary := "line1\nline2",
    entry_id := "arxiv.org/abs/1", published := 1,
    authors := ["Ann", "Bo", "Cy", "Di"] }

/-- Service oracle answering every call with the JSON object
score 42 / reason "hot". -/
def ora9 : Nat → SvcBehavior :=
  fun _ => .parsed (.obj [("score", .num 42), ("reason", .str "hot")])

/-- Service oracle answering every call with the JSON array `[]`. -/
def oraArr : Nat → SvcBehavior :=
  fun _ => .parsed (.arr [])

/-- Service oracle answering every call with a below-threshold score. -/
def oraLow : Nat → SvcBehavior :=
  fun _ => .parsed (.obj [("score", .num 3), ("reason", .str "meh")])

/-- The retrieval record `search_arxiv` builds from `r9` at `now = 0`. -/
def p9 : Paper := toCandidate r9

/-- `p9` after enrichment by the loop under the oracle `ora9`. -/
def p9e : Paper :=
  { p9 with score := some 42, reason := some (.str "hot") }

/-- `p0` after enrichment by the loop under the oracle `ora9`. -/
def p0hot : Paper :=
  { p0 with score := some 42, reason := some (.str "hot") }

/-- The effects record of the run
`mainRun (some "k") setEnum [] 0 [r9] ora9 "d"`, written in the shape of
`mainRun`'s final branch. -/
def eff9 : RunEffects :=
  ⟨true, true, 1, [p9e], [p9e], rankPapers [p9e], !(rankPapers [p9e]).isEmpty,
    if (rankPapers [p9e]).isEmpty then none
    else some (buildContent "d" (rankPapers [p9e]))⟩

/-- Concatenation of the digest blocks of the given papers, in order. -/
def concatBlocks : List Paper → String
  | [] => ""
  | p :: ps => blockOf p ++ concatBlocks ps

/-- Claim C2 — confirmed.  The filter at lines 160-165 keeps a candidate
exactly when its score is at least 7: a numeric service score `n` leads
to enrichment precisely when `7 ≤ n` (so 7 is kept, 6 is dropped), and
the sentinel produced for a raising or unparseable service call carries
score 0 and is always dropped. -/
theorem threshold_boundary (n : Int) (rs : String) (p : Paper) :
    reviewStep (.parsed (.obj [("score", .num n), ("reason", .str rs)])) p
      = .ok (if 7 ≤ n then
               some { p with score := some n, reason := some (.str rs) }
             else none)
  ∧ reviewStep .err p = .ok none
  ∧ reviewStep .badText p = .ok none := by
  refine ⟨?_, rfl, rfl⟩
  by_cases hn : 7 ≤ n <;>
    simp [reviewStep, ai_review_paper, pyGet, hn, List.lookup]

/-- Claim C4 — confirmed.  The retrieval loop keeps a result exactly when
its publication instant is strictly after the run instant minus 36 hours
(36 · 3600 seconds, not 24 hours); results at or before the boundary are
excluded, and survivors are normalized by `toCandidate`. -/
theorem window_filter (now : Int) (results : List ArxivResult) :
    windowSeconds = 36 * 3600
  ∧ search_arxiv now results
      = (results.filter (fun r => now - windowSeconds < r.published)).map
          toCandidate := by
  refine ⟨rfl, ?_⟩
  induction results with
  | nil => rfl
  | cons r rs ih =>
      by_cases h : now - windowSeconds < r.published <;>
        simp [search_arxiv, h, ih]

/-- Claim C7 — confirmed.  When the scoring credential is absent (or the
falsy empty string), `main` returns at its first statement: no
reference-manager fetch, no preprint search, no scoring call and no
delivery attempt are reached. -/
theorem missing_credential_aborts (enum : Finset String → List String)
    (tags : List String) (now : Int) (results : List ArxivResult)
    (oracle : Nat → SvcBehavior) (today : String) :
    mainRun none enum tags now results oracle today
      = .ok ⟨false, false, 0, [], [], [], false, none⟩
  ∧ mainRun (some "") enum tags now results oracle today
      = .ok ⟨false, false, 0, [], [], [], false, none⟩ :=
  ⟨rfl, rfl⟩


/-- A benign service behaviour never raises out of the loop body: the
step returns some verdict instead of an exception. -/
theorem reviewStep_ok_of_benign {b : SvcBehavior}
    (hb : benignBehavior b = true) (p : Paper) :
    ∃ r, reviewStep b p = .ok r := by
  cases b with
  | err => exact ⟨none, rfl⟩
  | badText => exact ⟨none, rfl⟩
  | parsed v =>
    cases v with
    | obj fs =>
      cases hl : fs.lookup "score" with
      | none =>
          exact ⟨none, by simp [reviewStep, ai_review_paper, pyGet, hl]⟩
      | some sv =>
          cases sv with
          | num n =>
              by_cases hn : 7 ≤ n
              · exact ⟨some { p with score := some n, reason := some ((fs.lookup "reason").getD (.str "N/A")) }, by simp [reviewStep, ai_review_paper, pyGet, hl, hn]⟩
              · exact ⟨none, by simp [reviewStep, ai_review_paper, pyGet, hl, hn]⟩
          | bool c =>
              exact ⟨none, by simp [reviewStep, ai_review_paper, pyGet, hl]⟩
          | obj gs => simp [benignBehavior, hl] at hb
          | arr xs => simp [benignBehavior, hl] at hb
          | str s => simp [benignBehavior, hl] at hb
          | null => simp [benignBehavior, hl] at hb
    | arr xs => simp [benignBehavior] at hb
    | num n => simp [benignBehavior] at hb
    | str s => simp [benignBehavior] at hb
    | bool c => simp [benignBehavior] at hb
    | null => simp [benignBehavior] at hb

/-- A step that keeps its paper enriched it with a score of at least 7
and some reason value, and changed nothing else. -/
theorem reviewStep_some_shape {b : SvcBehavior} {p q : Paper}
    (h : reviewStep b p = .ok (some q)) :
    ∃ n r, 7 ≤ n ∧ q = { p with score := some n, reason := some r } := by
  cases b with
  | err => simp [reviewStep, ai_review_paper, pyGet, sentinel] at h
  | badText => simp [reviewStep, ai_review_paper, pyGet, sentinel] at h
  | parsed v =>
    cases v with
    | obj fs =>
      cases hl : fs.lookup "score" with
      | none => simp [reviewStep, ai_review_paper, pyGet, hl] at h
      | some sv =>
          cases sv with
          | num n =>
              by_cases hn : 7 ≤ n
              · have hstep : reviewStep (.parsed (.obj fs)) p = .ok (some { p with score := some n, reason := some ((fs.lookup "reason").getD (.str "N/A")) }) := by
                  simp [reviewStep, ai_review_paper, pyGet, hl, hn]
                rw [hstep] at h
                simp only [Except.ok.injEq, Option.some.injEq] at h
                exact ⟨n, (fs.lookup "reason").getD (.str "N/A"), hn, h.symm⟩
              · simp [reviewStep, ai_review_paper, pyGet, hl, hn] at h
          | bool c => simp [reviewStep, ai_review_paper, pyGet, hl] at h
          | obj gs => simp [reviewStep, ai_review_paper, pyGet, hl] at h
          | arr xs => simp [reviewStep, ai_review_paper, pyGet, hl] at h
          | str s => simp [reviewStep, ai_review_paper, pyGet, hl] at h
          | null => simp [reviewStep, ai_review_paper, pyGet, hl] at h
    | arr xs => simp [reviewStep, ai_review_paper, pyGet] at h
    | num n => simp [reviewStep, ai_review_paper, pyGet] at h
    | str s => simp [reviewStep, ai_review_paper, pyGet] at h
    | bool c => simp [reviewStep, ai_review_paper, pyGet] at h
    | null => simp [reviewStep, ai_review_paper, pyGet] at h

/-- Structure of a completed scoring loop: one post-loop record per
candidate; each record is the retrieval record untouched or the same
record enriched with a score of at least 7; the kept list is a
subsequence of the post-loop records (so it preserves retrieval order)
and every kept paper carries a score of at least 7. -/
theorem reviewLoop_spec (oracle : Nat → SvcBehavior) (i : Nat)
    (cs post kept : List Paper)
    (h : reviewLoop oracle i cs = .ok (post, kept)) :
    post.length = cs.length
  ∧ kept.Sublist post
  ∧ (∀ q ∈ kept, ∃ n, q.score = some n ∧ 7 ≤ n)
  ∧ ∀ k (hk : k < cs.length) (hk2 : k < post.length),
      post.get ⟨k, hk2⟩ = cs.get ⟨k, hk⟩
      ∨ ∃ n r, 7 ≤ n
          ∧ post.get ⟨k, hk2⟩
              = { cs.get ⟨k, hk⟩ with score := some n, reason := some r } := by
  induction cs generalizing i post kept with
  | nil =>
      simp [reviewLoop] at h
      obtain ⟨h1, h2⟩ := h
      subst h1; subst h2
      refine ⟨rfl, List.Sublist.refl _, by simp, ?_⟩
      intro k hk hk2
      simp at hk
  | cons p ps ih =>
      simp only [reviewLoop] at h
      cases hstep : reviewStep (oracle i) p with
      | error e => rw [hstep] at h; simp at h
      | ok r =>
        rw [hstep] at h
        cases r with
        | none =>
            cases hrec : reviewLoop oracle (i + 1) ps with
            | error e => rw [hrec] at h; simp at h
            | ok pk =>
                obtain ⟨post2, kept2⟩ := pk
                rw [hrec] at h
                simp at h
                obtain ⟨hpost, hkept⟩ := h
                subst hpost; subst hkept
                obtain ⟨hlen, hsub, hsc, hidx⟩ := ih (i + 1) post2 kept2 hrec
                refine ⟨by simp [hlen], hsub.cons p, hsc, ?_⟩
                intro k hk hk2
                cases k with
                | zero => exact Or.inl rfl
                | succ k =>
                    exact hidx k (by simpa using hk) (by simpa using hk2)
        | some p2 =>
            cases hrec : reviewLoop oracle (i + 1) ps with
            | error e => rw [hrec] at h; simp at h
            | ok pk =>
                obtain ⟨post2, kept2⟩ := pk
                rw [hrec] at h
                simp at h
                obtain ⟨hpost, hkept⟩ := h
                subst hpost; subst hkept
                obtain ⟨n, rr, hn, hq⟩ := reviewStep_some_shape hstep
                obtain ⟨hlen, hsub, hsc, hidx⟩ := ih (i + 1) post2 kept2 hrec
                refine ⟨by simp [hlen], hsub.cons₂ p2, ?_, ?_⟩
                · intro q hq2
                  rcases List.mem_cons.mp hq2 with hq3 | hq3
                  · subst hq3
                    exact ⟨n, by simp [hq], hn⟩
                  · exact hsc q hq3
                · intro k hk hk2
                  cases k with
                  | zero => exact Or.inr ⟨n, rr, hn, hq⟩
                  | succ k =>
                      exact hidx k (by simpa using hk) (by simpa using hk2)

/-- A benign oracle lets the loop run to completion, with one post-loop
record per candidate. -/
theorem reviewLoop_ok_of_benign (oracle : Nat → SvcBehavior)
    (hb : ∀ j, benignBehavior (oracle j) = true) (i : Nat)
    (cs : List Paper) :
    ∃ post kept, reviewLoop oracle i cs = .ok (post, kept)
      ∧ post.length = cs.length := by
  induction cs generalizing i with
  | nil => exact ⟨[], [], rfl, rfl⟩
  | cons p ps ih =>
      obtain ⟨r, hr⟩ := reviewStep_ok_of_benign (hb i) p
      obtain ⟨post, kept, hrec, hlen⟩ := ih (i + 1)
      cases r with
      | none =>
          exact ⟨p :: post, kept, by simp [reviewLoop, hr, hrec], by simp [hlen]⟩
      | some p2 =>
          exact ⟨p2 :: post, p2 :: kept, by simp [reviewLoop, hr, hrec], by simp [hlen]⟩

/-- Claim C1 — counterexample.  A scoring-service response whose text is
valid JSON but not an object escapes the local handler: `ai_review_paper`
returns the array unchanged, and the loop in `main` then raises
`AttributeError` at `review.get`, aborting the whole batch; likewise a
parsed object with missing fields is returned as-is rather than mapped
to the sentinel. -/
theorem scoring_abort_counterexample :
    runError (mainRun (some "k") setEnum [] 0 [r9] oraArr "d")
      = some .attrError
  ∧ ai_review_paper (.parsed (.obj [])) = .obj []
  ∧ PyJson.obj [] ≠ sentinel := by
  refine ⟨rfl, rfl, ?_⟩
  simp [sentinel]

/-- Claim C1 — amended.  Failures that raise inside the guarded scoring
call (service errors, non-JSON response text) are mapped to the sentinel
score 0 / reason "Error", and whenever every parsed response is a JSON
object whose score field is absent, numeric or boolean, the loop
completes with one result record per candidate; a parsed payload outside
that shape is returned unchanged by `ai_review_paper` and can abort the
batch in the loop. -/
theorem scoring_failure_isolation (oracle : Nat → SvcBehavior)
    (cs : List Paper) (i : Nat)
    (hb : ∀ j, benignBehavior (oracle j) = true) :
    ai_review_paper .err = sentinel
  ∧ ai_review_paper .badText = sentinel
  ∧ ∃ post kept, reviewLoop oracle i cs = .ok (post, kept)
      ∧ post.length = cs.length :=
  ⟨rfl, rfl, reviewLoop_ok_of_benign oracle hb i cs⟩

/-- Witness for `scoring_failure_isolation` at the constant failing
oracle and a one-candidate batch. -/
theorem scoring_failure_isolation_witness :
    ai_review_paper .err = sentinel
  ∧ ∃ post kept, reviewLoop (fun _ => .err) 0 [p0] = .ok (post, kept)
      ∧ post.length = [p0].length := by
  have h := scoring_failure_isolation (fun _ => .err) [p0] 0 (fun j => rfl)
  exact ⟨h.1, h.2.2⟩

/-- Claim C10 — confirmed.  The loop enriches only papers meeting the
threshold: a below-threshold candidate's post-loop record is exactly its
retrieval record — title, abstract, url, authors (and its absent score
and reason) unchanged — while a kept record is the retrieval record with
only `score` (at least 7) and `reason` added. -/
theorem below_threshold_frame (oracle : Nat → SvcBehavior) (i : Nat)
    (cs post kept : List Paper)
    (h : reviewLoop oracle i cs = .ok (post, kept)) :
    post.length = cs.length
  ∧ ∀ k (hk : k < cs.length) (hk2 : k < post.length),
      post.get ⟨k, hk2⟩ = cs.get ⟨k, hk⟩
      ∨ ∃ n r, 7 ≤ n
          ∧ post.get ⟨k, hk2⟩
              = { cs.get ⟨k, hk⟩ with score := some n, reason := some r } := by
  obtain ⟨hlen, _, _, hidx⟩ := reviewLoop_spec oracle i cs post kept h
  exact ⟨hlen, hidx⟩

/-- Witness for `below_threshold_frame`: under the below-threshold
oracle the single candidate's record survives the loop unchanged. -/
theorem below_threshold_frame_witness :
    [p0].get ⟨0, Nat.zero_lt_one⟩ = p0
  ∨ ∃ n r, 7 ≤ n
      ∧ [p0].get ⟨0, Nat.zero_lt_one⟩
          = { p0 with score := some n, reason := some r } :=
  (below_threshold_frame oraLow 0 [p0] [p0] [] rfl).2 0
    Nat.zero_lt_one Nat.zero_lt_one

/-- The ranking comparison is transitive. -/
theorem leRank_trans (a b c : Paper) :
    leRank a b → leRank b c → leRank a c := by
  simp only [leRank, decide_eq_true_eq]
  omega

/-- The ranking comparison is total. -/
theorem leRank_total (a b : Paper) : leRank a b || leRank b a := by
  simp only [leRank, Bool.or_eq_true, decide_eq_true_eq]
  omega

/-- Claim C3 — confirmed.  The ranked output is monotonically
non-increasing in score; any two equal-score papers appearing in the
sort's input in some order still appear in that order in the output
(CPython's `sort` with `reverse=True` is stable, modelled by a stable
merge sort); and the sort's input `high_quality_papers` preserves the
retrieval-stage order, being a subsequence of the positionally
candidate-aligned post-loop records. -/
theorem ranker_sorted_stable (l : List Paper) :
    (rankPapers l).Pairwise (fun a b => scoreKey b ≤ scoreKey a)
  ∧ (∀ a b : Paper, scoreKey a = scoreKey b →
      [a, b].Sublist l → [a, b].Sublist (rankPapers l))
  ∧ ∀ (oracle : Nat → SvcBehavior) (i : Nat) (cs post kept : List Paper),
      reviewLoop oracle i cs = .ok (post, kept) → kept.Sublist post := by
  refine ⟨?_, ?_, ?_⟩
  · have h := @List.sorted_mergeSort Paper leRank
      (fun a b c => leRank_trans a b c) (fun a b => leRank_total a b) l
    exact h.imp (fun hab => by simpa [leRank, decide_eq_true_eq] using hab)
  · intro a b hab hsub
    exact List.pair_sublist_mergeSort
      (fun a b c => leRank_trans a b c) (fun a b => leRank_total a b)
      (by simp [leRank, hab]) hsub
  · intro oracle i cs post kept h
    exact (reviewLoop_spec oracle i cs post kept h).2.1

/-- Witness for `ranker_sorted_stable`: the two equal-score papers keep
their input order through the ranker, and a concrete completed loop's
kept list is a subsequence of its post-loop records. -/
theorem ranker_sorted_stable_witness :
    [pa, pb].Sublist (rankPapers [pa, pb]) ∧ [p0hot].Sublist [p0hot] := by
  have h := ranker_sorted_stable [pa, pb]
  exact ⟨h.2.1 pa pb rfl (List.Sublist.refl _),
    h.2.2 ora9 0 [p0] [p0hot] [p0hot] rfl⟩

/-- Claim C6 — confirmed.  With the credential present, an empty
retrieval result short-circuits `main` before the scoring loop — zero
scoring calls, no delivery, no email body — and any completed run whose
ranked list is empty attempts no delivery and builds no email body. -/
theorem empty_short_circuit (key : Option String)
    (enum : Finset String → List String) (tags : List String) (now : Int)
    (results : List ArxivResult) (oracle : Nat → SvcBehavior)
    (today : String) (hkey : pyFalsy key = false) :
    (search_arxiv now results = [] →
      mainRun key enum tags now results oracle today
        = .ok ⟨true, true, 0, [], [], [], false, none⟩)
  ∧ ∀ eff, mainRun key enum tags now results oracle today = .ok eff →
      eff.ranked = [] →
      eff.deliveryAttempted = false ∧ eff.emailBody = none := by
  constructor
  · intro hempty
    simp [mainRun, hkey, hempty]
  · intro eff heff hranked
    simp only [mainRun, hkey] at heff
    simp only [Bool.false_eq_true, if_false] at heff
    by_cases hcand : (search_arxiv now results).isEmpty
    · simp [hcand] at heff
      subst heff
      exact ⟨rfl, rfl⟩
    · simp [hcand] at heff
      cases hloop : reviewLoop oracle 0 (search_arxiv now results) with
      | error e => rw [hloop] at heff; simp at heff
      | ok pk =>
          obtain ⟨post, kept⟩ := pk
          rw [hloop] at heff
          simp at heff
          subst heff
          simp only [RunEffects.ranked] at hranked
          simp [hranked]

/-- Witness for `empty_short_circuit` at a present credential and an
empty arXiv stream. -/
theorem empty_short_circuit_witness :
    pyFalsy (some "k") = false
  ∧ mainRun (some "k") setEnum [] 0 [] (fun _ => .err) "d"
      = .ok ⟨true, true, 0, [], [], [], false, none⟩ := by
  have h := empty_short_circuit (some "k") setEnum [] 0 []
    (fun _ => .err) "d" rfl
  exact ⟨rfl, h.1 rfl⟩

/-- Claim C9 — counterexample.  Nothing validates the service's score
against the stated [0,10] range: a response scoring 42 enriches the
candidate, survives the threshold filter, and reaches the ranked digest
with score 42. -/
theorem score_range_counterexample :
    rankedScores (mainRun (some "k") setEnum [] 0 [r9] ora9 "d")
      = [some 42]
  ∧ (10 : Int) < 42 := by
  constructor
  · show rankedScores (.ok ⟨true, true, 1, _, _, rankPapers [_], _, _⟩)
      = [some 42]
    simp [rankedScores, rankPapers]
  · decide

/-- Claim C9 — amended.  Every paper in a completed run's ranked digest
carries a score, and that score is at least 7; no upper bound is
enforced, the score being whatever integer the service supplied. -/
theorem ranked_scores_min7 (key : Option String)
    (enum : Finset String → List String) (tags : List String) (now : Int)
    (results : List ArxivResult) (oracle : Nat → SvcBehavior)
    (today : String) (eff : RunEffects)
    (h : mainRun key enum tags now results oracle today = .ok eff) :
    ∀ p ∈ eff.ranked, ∃ n, p.score = some n ∧ 7 ≤ n := by
  by_cases hkey : pyFalsy key = true
  · simp [mainRun, hkey] at h
    subst h
    simp
  · simp only [mainRun, hkey, if_false] at h
    by_cases hcand : (search_arxiv now results).isEmpty
    · simp [hcand] at h
      subst h
      simp
    · simp [hcand] at h
      cases hloop : reviewLoop oracle 0 (search_arxiv now results) with
      | error e => rw [hloop] at h; simp at h
      | ok pk =>
          obtain ⟨post, kept⟩ := pk
          rw [hloop] at h
          simp at h
          subst h
          intro p hp
          simp only [RunEffects.ranked] at hp
          have hp2 : p ∈ kept := by
            rw [rankPapers] at hp
            exact List.mem_mergeSort.mp hp
          exact (reviewLoop_spec oracle 0 _ post kept hloop).2.2.1 p hp2

/-- Witness for `ranked_scores_min7` at the concrete over-range run. -/
theorem ranked_scores_min7_witness :
    ∃ n, p9e.score = some n ∧ 7 ≤ n :=
  ranked_scores_min7 (some "k") setEnum [] 0 [r9] ora9 "d" eff9 rfl p9e
    (by simp [eff9, rankPapers])

/-- Claim C5 — counterexample.  The fallback list is appended without
deduplication against the tags already collected: a Zotero tag equal to
the fallback keyword "FPGA" yields a keyword list containing "FPGA"
twice (under any admissible set linearization, here the sorted one). -/
theorem keywords_dedup_counterexample :
    get_keywords_from_zotero setEnum ["FPGA"]
      = ["FPGA", "FPGA", "Quantization", "Vision Transformer",
          "Hardware Accelerator"]
  ∧ ¬ (get_keywords_from_zotero setEnum ["FPGA"]).Nodup := by
  have h : get_keywords_from_zotero setEnum ["FPGA"]
      = ["FPGA", "FPGA", "Quantization", "Vision Transformer",
          "Hardware Accelerator"] := by
    unfold get_keywords_from_zotero setEnum
    rw [show asciiTagSet ["FPGA"] = ({"FPGA"} : Finset String) by decide,
      Finset.sort_singleton]
    rfl
  refine ⟨h, ?_⟩
  rw [h]
  decide

/-- Claim C5 — amended.  Keyword extraction keeps only ASCII tags,
deduplicates them through the Python set (whose linearization order is
contents-determined, not first-seen), appends the fallback list without
deduplicating it against the tags already present, and truncates to at
most 6 keywords; for any admissible linearization the result is the
same regardless of the tags' arrival order. -/
theorem keywords_order_independent (enum : Finset String → List String)
    (henum : ∀ s : Finset String, (enum s).Nodup ∧ (enum s).toFinset = s)
    (tags tags2 : List String) (hperm : tags.Perm tags2) :
    get_keywords_from_zotero enum tags = get_keywords_from_zotero enum tags2
  ∧ (get_keywords_from_zotero enum tags).length ≤ 6
  ∧ (enum (asciiTagSet tags)).Nodup
  ∧ ∀ t ∈ enum (asciiTagSet tags), isAsciiStr t = true := by
  have hset : asciiTagSet tags = asciiTagSet tags2 :=
    List.toFinset_eq_of_perm _ _ (hperm.filter isAsciiStr)
  refine ⟨by rw [get_keywords_from_zotero, get_keywords_from_zotero, hset],
    ?_, (henum _).1, ?_⟩
  · rw [get_keywords_from_zotero]
    simp [List.length_take]
  · intro t ht
    have h1 : t ∈ (enum (asciiTagSet tags)).toFinset :=
      List.mem_toFinset.mpr ht
    rw [(henum _).2] at h1
    have h2 : t ∈ tags.filter isAsciiStr := List.mem_toFinset.mp h1
    exact (List.mem_filter.mp h2).2

/-- Witness for `keywords_order_independent` at the sorted linearization
and a two-tag permutation. -/
theorem keywords_order_independent_witness :
    get_keywords_from_zotero setEnum ["alpha", "beta"]
      = get_keywords_from_zotero setEnum ["beta", "alpha"]
  ∧ (get_keywords_from_zotero setEnum ["alpha", "beta"]).length ≤ 6 := by
  have h := keywords_order_independent setEnum
    (fun s => ⟨Finset.sort_nodup (· ≤ ·) s, Finset.sort_toFinset (· ≤ ·) s⟩)
    ["alpha", "beta"] ["beta", "alpha"] (by decide)
  exact ⟨h.1, h.2.1⟩

/-- The rendering loop's accumulator closed form: starting from any
prefix, the loop appends exactly one block per paper, in order. -/
theorem foldl_blocks (init : String) (papers : List Paper) :
    papers.foldl (fun acc p => acc ++ blockOf p) init
      = init ++ concatBlocks papers := by
  induction papers generalizing init with
  | nil => simp [concatBlocks]
  | cons p ps ih => simp [concatBlocks, ih, String.append_assoc]

/-- Claim C8 — counterexample.  In a rendered block the title appears
before the reason (character positions 5 and 14 of the block of `pX`),
so the fields are not in the claimed order score, reason, title, URL:
no in-order occurrence of score, reason, title, URL exists in the
block. -/
theorem digest_order_counterexample :
    strPos "T1" (blockOf pX) = some 5
  ∧ strPos "R1" (blockOf pX) = some 14
  ∧ strContainsInOrder ["8", "R1", "T1", "U1"] (blockOf pX) = false :=
  ⟨rfl, rfl, rfl⟩

/-- Claim C8 — amended.  The report is the count-and-date summary line
followed by one block per surviving candidate in ranked order, each
block carrying score, title, reason and URL in that order and ending
with the forty-dash separator line. -/
theorem digest_render (today : String) (papers : List Paper) :
    buildContent today papers
      = mkHeader papers.length today ++ concatBlocks papers
  ∧ mkHeader papers.length today
      = "Gemini 为您精选了 " ++ toString papers.length ++
          " 篇 FPGA/AI 硬件相关论文 (" ++ today ++ ")：\n\n"
  ∧ strContainsInOrder ["8", "T1", "R1", "U1"] (blockOf pX) = true :=
  ⟨foldl_blocks (mkHeader papers.length today) papers, rfl, rfl⟩
